import Mathlib

/-!
Shallow embedding of the GitHub Repo Analyst pipeline (`src/app.py`):
URL validation, important-file selection, repository data fetching, prompt
composition and the AI analysis runner, together with theorems checking the
specification of the repository against this embedding.

Python strings are embedded as `String`/`List Char` (Python slicing and
regex matching act on characters, i.e. on `String.data`), raised exceptions
as `Except`/`Option` error values, and the two external services (the forge
API and the AI agent service) as explicit input values or oracles supplied
to the embedded functions.
-/

namespace RepoAnalyst

/-! ## URL validator (`validate_repo_url`, app.py lines 18-24) -/

/-- Match a literal character sequence at the front of `s`: `some r` exactly
when `s = lit ++ r`, `none` otherwise.  Building block for the anchored
regex match `re.match(r"https?://github\.com/([^/]+)/([^/]+)", url)`. -/
def dropLit : List Char → List Char → Option (List Char)
  | [], s => some s
  | _ :: _, [] => none
  | c :: p, d :: s => if d = c then dropLit p s else none

/-- Embedding of `validate_repo_url`.  `re.match` anchors the pattern at the
start of the string only; `https?` accepts both schemes; each `([^/]+)` group
greedily captures a non-empty run of characters other than a slash, so the
first group ends at the slash separating owner from repo and the second group
ends at the next slash (or the end of the string), ignoring any trailing path
segments.  `some` carries the returned string `owner ++ "/" ++ repo`
(the Python `return` of the interpolation of the two groups); `none` models
raising `ValueError("Invalid GitHub URL. ...")`. -/
def validate_repo_url (url : List Char) : Option (List Char) :=
  match (match dropLit "https://".toList url with
         | some r => some r
         | none => dropLit "http://".toList url) with
  | none => none
  | some r =>
    match dropLit "github.com/".toList r with
    | none => none
    | some r2 =>
      let owner := r2.takeWhile (fun c => c ≠ '/')
      let past := r2.dropWhile (fun c => c ≠ '/')
      if owner = [] then none
      else
        match past with
        | [] => none
        | _ :: r3 =>
          let repo := r3.takeWhile (fun c => c ≠ '/')
          if repo = [] then none else some (owner ++ '/' :: repo)

/-- The URL shape named by claim C1, written from the claim text with
`<host>` read as the configured forge host `github.com`: a string
`https://github.com/<owner>/<repo>` followed by optional trailing path
segments (empty or beginning with a slash). -/
def matchesClaimUrlPattern (url : List Char) : Prop :=
  ∃ owner repo rest : List Char,
    owner ≠ [] ∧ '/' ∉ owner ∧ repo ≠ [] ∧ '/' ∉ repo ∧
    (rest = [] ∨ ∃ t, rest = '/' :: t) ∧
    url = "https://github.com/".toList ++ (owner ++ '/' :: (repo ++ rest))

/-! ## File selector (`get_important_file_content`, app.py lines 26-49) -/

/-- A root-listing entry as the forge API presents it: `name`, `path`, the
`type` tag (`"file"` for regular files, `"dir"` otherwise), `size` in bytes,
and the outcome of fetching and UTF-8-decoding the content.  `decoded = none`
models a `UnicodeDecodeError` or `GithubException` raised while reading
`content_file.decoded_content`. -/
structure ContentFile where
  name : String
  path : String
  type : String
  size : Nat
  decoded : Option String
deriving DecidableEq, Repr

/-- The fixed priority list of app.py lines 28-32. -/
def priority_files : List String :=
  ["README.md", "pyproject.toml", "package.json", "requirements.txt",
   "main.py", "app.py", "index.js", "docker-compose.yml", "Dockerfile",
   "pom.xml", "build.gradle"]

/-- The Python sort key
`priority_files.index(f.name) if f.name in priority_files else float("inf")`:
the index of the name in the priority list, with `⊤` for absent names. -/
def sortKey (f : ContentFile) : WithTop Nat :=
  match priority_files.findIdx? (fun s => s = f.name) with
  | some i => (i : WithTop Nat)
  | none => ⊤

/-- The ordering `list.sort(key=...)` sorts by: comparison of sort keys. -/
def fileOrder (f g : ContentFile) : Prop := sortKey f ≤ sortKey g

instance : DecidableRel fileOrder :=
  fun f g => inferInstanceAs (Decidable (sortKey f ≤ sortKey g))

instance : IsTotal ContentFile fileOrder := ⟨fun f g => le_total (sortKey f) (sortKey g)⟩

instance : IsTrans ContentFile fileOrder := ⟨fun _ _ _ h h2 => le_trans h h2⟩

/-- Embedding of `files_to_check.sort(key=...)`.  Python `list.sort` is a
stable sort by the key function; insertion sort by `sortKey _ ≤ sortKey _`
is extensionally the same stable sort (the spec notes any equivalent stable
sort with the same key function may be used). -/
def sortFiles (l : List ContentFile) : List ContentFile :=
  List.insertionSort fileOrder l

/-- The placeholder text stored for a file larger than `max_file_size`. -/
def tooLargeMsg (max_file_size : Nat) : String :=
  "--- File content too large (>" ++ toString max_file_size ++ " bytes) ---"

/-- The placeholder text stored when decoding a file fails. -/
def undecodableMsg : String := "--- Could not decode file content ---"

/-- The `st.warning` text emitted when the root listing cannot be fetched
(`e` stands for the interpolated exception text). -/
def listingWarning (e : String) : String :=
  "Could not fetch some file contents: " ++ e

/-- The loop body of app.py lines 38-46 for one selected file: a too-large
file becomes a `tooLargeMsg` placeholder without its `decoded` content ever
being consulted; otherwise the decoded text is stored, or the
`undecodableMsg` placeholder when decoding failed. -/
def fetchEntry (max_file_size : Nat) (f : ContentFile) : String × String :=
  if f.size > max_file_size then (f.path, tooLargeMsg max_file_size)
  else
    match f.decoded with
    | some text => (f.path, text)
    | none => (f.path, undecodableMsg)

/-- Embedding of `get_important_file_content`.  `contents` is the outcome of
`repo.get_contents("")` (`Except.error` models the `GithubException` caught
by the outer handler).  The result pairs the `file_contents` mapping, as the
association list in loop order (root-listing paths are distinct, so this is
exactly the Python dict in insertion order), with the optional warning text
surfaced via `st.warning`. -/
def get_important_file_content (contents : Except String (List ContentFile))
    (max_files : Nat) (max_file_size : Nat) :
    List (String × String) × Option String :=
  match contents with
  | .error e => ([], some (listingWarning e))
  | .ok cs =>
    let files_to_check := sortFiles (cs.filter (fun f => f.type = "file"))
    ((files_to_check.take max_files).map (fetchEntry max_file_size), none)

/-! ## Repository data fetcher (`fetch_repo_data`, app.py lines 51-69) -/

/-- A `GithubException`: HTTP status plus message text (`str(e)`). -/
structure GithubError where
  status : Nat
  msg : String
deriving DecidableEq, Repr

/-- What the forge API yields for a repository when the lookup succeeds:
the metadata attributes read by `fetch_repo_data`, the key list of
`repo.get_languages()`, and the root-listing outcome consumed by
`get_important_file_content`. -/
structure RawRepo where
  name : String
  owner_login : String
  description : Option String
  html_url : String
  language : Option String
  languages : List String
  stargazers_count : Nat
  forks_count : Nat
  topics : List String
  contents : Except String (List ContentFile)
deriving Repr

/-- The repository-context record assembled by `fetch_repo_data`. -/
structure RepoData where
  name : String
  owner : String
  description : String
  url : String
  language : String
  tech_stack : List String
  stars : Nat
  forks : Nat
  topics : List String
  important_files : List (String × String)
deriving DecidableEq, Repr

/-- Python `x or default` on an optional string: both `None` and the empty
string are falsy and fall through to the default. -/
def orDefault (v : Option String) (dflt : String) : String :=
  match v with
  | none => dflt
  | some s => if s = "" then dflt else s

/-- Embedding of `fetch_repo_data`.  `repoResult` is the outcome of the
forge lookup (`Except.error` models a `GithubException` from the API calls
inside the `try` block).  Error strings carry the messages of the three
re-raised exceptions, distinguished by status 404 / 401 / other. -/
def fetch_repo_data (repoResult : Except GithubError RawRepo) : Except String RepoData :=
  match repoResult with
  | .error e =>
    if e.status = 404 then .error "Repository not found. Please check the URL."
    else if e.status = 401 then .error "Authentication error. Please check your GitHub token."
    else .error ("Error fetching repo data: " ++ e.msg)
  | .ok repo =>
    .ok { name := repo.name
          owner := repo.owner_login
          description := orDefault repo.description "No description provided."
          url := repo.html_url
          language := orDefault repo.language "Not specified"
          tech_stack := repo.languages
          stars := repo.stargazers_count
          forks := repo.forks_count
          topics := repo.topics
          important_files := (get_important_file_content repo.contents 7 15000).1 }

/-! ## Prompt composer and AI analysis runner (`run_ai_analysis`, app.py lines 75-123) -/

/-- The structured `SummaryResult` object the workflow call is expected to
return.  A field is `none` when the attribute is absent, as on a free-text
`str` response, where the dynamic attribute access raises
`AttributeError`. -/
structure SummaryResult where
  summary : Option String
  key_points : Option (List String)
deriving DecidableEq, Repr

/-- The dict `run_ai_analysis` returns: `overview` and `features`. -/
structure AnalysisOutput where
  overview : String
  features : List String
deriving DecidableEq, Repr

/-- One file block appended to the context (app.py line 91): delimiters
around the path and the first 1500 characters of the content (Python
`content[:1500]`, character slicing on `String.data`). -/
def fileBlock (path content : String) : String :=
  "\n--- Start of " ++ path ++ " ---\n" ++ String.mk (content.data.take 1500) ++
  "\n--- End of " ++ path ++ " ---\n"

/-- The metadata header of the context f-string (app.py lines 82-89),
including the triple-quoted literal's indentation. -/
def contextHeader (rd : RepoData) : String :=
  "\n    Repository Name: " ++ rd.name ++
  "\n    Description: " ++ rd.description ++
  "\n    Primary Language: " ++ rd.language ++
  "\n    Topics: " ++ String.intercalate ", " rd.topics ++
  "\n    \n    Key File Contents:\n    "

/-- The full context string: header plus one `fileBlock` per entry of
`important_files`, appended in loop order. -/
def composeContext (rd : RepoData) : String :=
  rd.important_files.foldl (fun acc pc => acc ++ fileBlock pc.1 pc.2) (contextHeader rd)

/-- The prompt handed to the workflow (app.py line 107). -/
def compose_prompt (rd : RepoData) : String :=
  "Please provide a comprehensive analysis of the following repository context:\n" ++
  composeContext rd

/-- The message of the single exception re-raised by the handler of app.py
line 123, wrapping the detail text `str(e)`. -/
def aiErrorMsg (details : String) : String :=
  "An error occurred with the AI analysis. Please check your IO Intelligence API key. Details: " ++
  details

/-- Detail text of the `AttributeError` raised when the response object has
no `summary` attribute (punctuation of the Python message elided). -/
def missingSummaryDetail : String := "SummaryResult object has no attribute summary"

/-- Detail text of the `AttributeError` raised when the response object has
no `key_points` attribute (punctuation of the Python message elided). -/
def missingKeyPointsDetail : String := "SummaryResult object has no attribute key_points"

/-- Embedding of `run_ai_analysis`.  `oracle n prompt` is the outcome of the
`n`-th workflow round trip on `prompt`; the code performs exactly one
`await workflow.summarize_text(...).run_tasks()` call, so only `oracle 0` is
consulted (the attempt index makes the single-attempt property statable).
`Except.error` models the exception re-raised with `aiErrorMsg`; on a
structured response the `summary` attribute is read first, then
`key_points`, mirroring the evaluation order of the returned dict. -/
def run_ai_analysis (rd : RepoData)
    (oracle : Nat → String → Except String SummaryResult) :
    Except String AnalysisOutput :=
  let prompt := compose_prompt rd
  match oracle 0 prompt with
  | .error e => .error (aiErrorMsg e)
  | .ok obj =>
    match obj.summary with
    | none => .error (aiErrorMsg missingSummaryDetail)
    | some s =>
      match obj.key_points with
      | none => .error (aiErrorMsg missingKeyPointsDetail)
      | some kp => .ok { overview := s, features := kp }

/-! ## Concrete inputs used to instantiate the theorems -/

/-- Root-listing entries for the selection scenario of the spec: the three
names of the claimed example listing, all regular decodable files. -/
def readmeEntry : ContentFile :=
  ⟨"README.md", "README.md", "file", 20, some "readme text"⟩

/-- See `readmeEntry`. -/
def randomEntry : ContentFile :=
  ⟨"random.txt", "random.txt", "file", 20, some "random text"⟩

/-- See `readmeEntry`. -/
def packageEntry : ContentFile :=
  ⟨"package.json", "package.json", "file", 20, some "package text"⟩

/-- A regular file strictly larger than the default size ceiling. -/
def bigEntry : ContentFile := ⟨"big.bin", "big.bin", "file", 20000, some "x"⟩

/-- A regular file whose per-file fetch/decode fails. -/
def badEntry : ContentFile := ⟨"data.bin", "data.bin", "file", 10, none⟩

/-- A regular file whose size equals the default ceiling exactly. -/
def boundaryEntry : ContentFile :=
  ⟨"edge.txt", "edge.txt", "file", 15000, some "edge content"⟩

/-- A small concrete repository context. -/
def sampleRepoData : RepoData :=
  { name := "hello-world", owner := "octocat", description := "My first repo",
    url := "https://github.com/octocat/hello-world", language := "Ruby",
    tech_stack := ["Ruby"], stars := 1, forks := 0, topics := ["demo"],
    important_files := [("README.md", "hello")] }

/-- A forge response with no description and no primary language. -/
def bareRawRepo : RawRepo :=
  { name := "hello-world", owner_login := "octocat", description := none,
    html_url := "https://github.com/octocat/hello-world", language := none,
    languages := [], stargazers_count := 0, forks_count := 0, topics := [],
    contents := .ok [] }

/-- The context `fetch_repo_data` builds from `bareRawRepo`. -/
def bareRepoData : RepoData :=
  { name := "hello-world", owner := "octocat",
    description := "No description provided.",
    url := "https://github.com/octocat/hello-world", language := "Not specified",
    tech_stack := [], stars := 0, forks := 0, topics := [],
    important_files := [] }

/-! ## General lemmas about the building blocks -/

theorem string_data_append (a b : String) : (a ++ b).data = a.data ++ b.data := rfl

theorem dropLit_eq_some {p s r : List Char} : dropLit p s = some r ↔ s = p ++ r := by
  induction p generalizing s with
  | nil => simp [dropLit]
  | cons c p ih =>
    cases s with
    | nil => simp [dropLit]
    | cons d s =>
      simp only [dropLit]
      by_cases h : d = c
      · subst h
        simp [ih]
      · simp [h]

theorem dropLit_https_of_http (X : List Char) :
    dropLit "https://".toList ("http://".toList ++ X) = none := rfl

theorem takeWhile_append_cons_neg {α : Type _} (p : α → Bool) (l₁ : List α) (c : α)
    (l₂ : List α) (h₁ : ∀ x ∈ l₁, p x = true) (hc : p c = false) :
    (l₁ ++ c :: l₂).takeWhile p = l₁ := by
  induction l₁ with
  | nil => simp [List.takeWhile_cons, hc]
  | cons a t ih =>
    have ha : p a = true := h₁ a (by simp)
    simp [List.takeWhile_cons, ha, ih (fun x hx => h₁ x (by simp [hx]))]

theorem dropWhile_append_cons_neg {α : Type _} (p : α → Bool) (l₁ : List α) (c : α)
    (l₂ : List α) (h₁ : ∀ x ∈ l₁, p x = true) (hc : p c = false) :
    (l₁ ++ c :: l₂).dropWhile p = c :: l₂ := by
  induction l₁ with
  | nil => simp [List.dropWhile_cons, hc]
  | cons a t ih =>
    have ha : p a = true := h₁ a (by simp)
    simp [List.dropWhile_cons, ha, ih (fun x hx => h₁ x (by simp [hx]))]

theorem dropWhile_eq_cons_neg {α : Type _} (p : α → Bool) (l : List α) (c : α)
    (t : List α) (h : l.dropWhile p = c :: t) : p c = false := by
  induction l with
  | nil => simp [List.dropWhile] at h
  | cons a l ih =>
    rw [List.dropWhile_cons] at h
    by_cases ha : p a = true
    · rw [if_pos ha] at h
      exact ih h
    · rw [if_neg ha] at h
      obtain ⟨hac, -⟩ := List.cons_eq_cons.mp h
      subst hac
      simpa using ha

/-! ## Claim C1: URL validation -/

/-- Claim C1 counterexample: the source regex is `https?://github\.com/...`,
so the http scheme is accepted as well.  The string
`http://github.com/octocat/hello` does not match the claim's pattern
`https://<host>/<owner>/<repo>[...]`, yet `validate_repo_url` succeeds on it
instead of failing with the invalid-URL error. -/
theorem url_claim_counterexample :
    validate_repo_url "http://github.com/octocat/hello".toList
        = some "octocat/hello".toList
      ∧ ¬ matchesClaimUrlPattern "http://github.com/octocat/hello".toList := by
  refine ⟨by decide, ?_⟩
  rintro ⟨owner, repo, rest, -, -, -, -, -, hurl⟩
  have hsplit : "https://github.com/".toList = "https://".toList ++ "github.com/".toList := by
    decide
  rw [hsplit, List.append_assoc] at hurl
  have h8 := congrArg (List.take ("https://".toList).length) hurl
  rw [List.take_left] at h8
  exact absurd h8 (by decide)

/-- Claim C1 amended: for every input string of the form
`http://github.com/<owner>/<repo>` or `https://github.com/<owner>/<repo>`
with optional trailing path segments, `validate_repo_url` succeeds and
returns `owner/repo` taken from the first two path components; for every
other string it fails with the invalid-URL error (modelled as `none`). -/
theorem validate_repo_url_amended (url : List Char) :
    (∀ sch owner repo rest : List Char,
        (sch = "http://".toList ∨ sch = "https://".toList) →
        owner ≠ [] → '/' ∉ owner → repo ≠ [] → '/' ∉ repo →
        (rest = [] ∨ ∃ t, rest = '/' :: t) →
        url = sch ++ ("github.com/".toList ++ (owner ++ '/' :: (repo ++ rest))) →
        validate_repo_url url = some (owner ++ '/' :: repo))
    ∧ (∀ res, validate_repo_url url = some res →
        ∃ sch owner repo rest : List Char,
          (sch = "http://".toList ∨ sch = "https://".toList) ∧
          owner ≠ [] ∧ '/' ∉ owner ∧ repo ≠ [] ∧ '/' ∉ repo ∧
          (rest = [] ∨ ∃ t, rest = '/' :: t) ∧
          url = sch ++ ("github.com/".toList ++ (owner ++ '/' :: (repo ++ rest))) ∧
          res = owner ++ '/' :: repo) := by
  constructor
  · intro sch owner repo rest hsch ho hos hr hrs hrest hurl
    have hsch1 : (match dropLit "https://".toList url with
        | some r => some r
        | none => dropLit "http://".toList url)
        = some ("github.com/".toList ++ (owner ++ '/' :: (repo ++ rest))) := by
      rcases hsch with rfl | rfl
      · rw [hurl, dropLit_https_of_http, dropLit_eq_some.mpr rfl]
      · rw [dropLit_eq_some.mpr hurl]
    have howner : (owner ++ '/' :: (repo ++ rest)).takeWhile (fun c => decide (c ≠ '/')) = owner :=
      takeWhile_append_cons_neg _ _ _ _
        (fun x hx => decide_eq_true fun hxc => hos (hxc ▸ hx)) (by decide)
    have hpast : (owner ++ '/' :: (repo ++ rest)).dropWhile (fun c => decide (c ≠ '/')) =
        '/' :: (repo ++ rest) :=
      dropWhile_append_cons_neg _ _ _ _
        (fun x hx => decide_eq_true fun hxc => hos (hxc ▸ hx)) (by decide)
    have hrepo : (repo ++ rest).takeWhile (fun c => decide (c ≠ '/')) = repo := by
      rcases hrest with rfl | ⟨t, rfl⟩
      · rw [List.append_nil]
        exact List.takeWhile_eq_self_iff.mpr
          (fun x hx => decide_eq_true fun hxc => hrs (hxc ▸ hx))
      · exact takeWhile_append_cons_neg _ _ _ _
          (fun x hx => decide_eq_true fun hxc => hrs (hxc ▸ hx)) (by decide)
    have hgh : dropLit "github.com/".toList
        ("github.com/".toList ++ (owner ++ '/' :: (repo ++ rest)))
        = some (owner ++ '/' :: (repo ++ rest)) := dropLit_eq_some.mpr rfl
    rw [validate_repo_url, hsch1]
    simp only [hgh, howner, hpast, hrepo, if_neg ho, if_neg hr]
  · intro res hres
    rw [validate_repo_url] at hres
    split at hres
    · exact absurd hres (by simp)
    rename_i r hsch
    have hurl : ∃ sch, (sch = "http://".toList ∨ sch = "https://".toList) ∧
        url = sch ++ r := by
      split at hsch
      · rename_i r' heq
        exact ⟨"https://".toList, Or.inr rfl, by
          rw [dropLit_eq_some.mp heq, Option.some_inj.mp hsch]⟩
      · exact ⟨"http://".toList, Or.inl rfl, dropLit_eq_some.mp hsch⟩
    split at hres
    · exact absurd hres (by simp)
    rename_i r2 hgh
    have hr2 : r = "github.com/".toList ++ r2 := dropLit_eq_some.mp hgh
    simp only [] at hres
    split at hres
    · exact absurd hres (by simp)
    rename_i howner
    split at hres
    · exact absurd hres (by simp)
    rename_i c r3 hpast
    split at hres
    · exact absurd hres (by simp)
    rename_i hrepo
    obtain ⟨sch, hschor, hurl⟩ := hurl
    have hc : c = '/' := by
      have := dropWhile_eq_cons_neg _ _ _ _ hpast
      simpa using this
    refine ⟨sch, r2.takeWhile (fun c => decide (c ≠ '/')),
      r3.takeWhile (fun c => decide (c ≠ '/')),
      r3.dropWhile (fun c => decide (c ≠ '/')), hschor, howner, ?_, hrepo, ?_, ?_, ?_, ?_⟩
    · intro hmem
      exact absurd (List.mem_takeWhile_imp hmem) (by simp)
    · intro hmem
      exact absurd (List.mem_takeWhile_imp hmem) (by simp)
    · rcases hrest : r3.dropWhile (fun c => decide (c ≠ '/')) with _ | ⟨c', t⟩
      · exact Or.inl rfl
      · have hc' : c' = '/' := by
          have := dropWhile_eq_cons_neg _ _ _ _ hrest
          simpa using this
        exact Or.inr ⟨t, by rw [hc']⟩
    · rw [hurl, hr2]
      congr 1
      congr 1
      calc r2 = r2.takeWhile (fun c => decide (c ≠ '/')) ++
            r2.dropWhile (fun c => decide (c ≠ '/')) :=
            (List.takeWhile_append_dropWhile _ _).symm
        _ = r2.takeWhile (fun c => decide (c ≠ '/')) ++ ('/' :: r3) := by rw [hpast, hc]
        _ = r2.takeWhile (fun c => decide (c ≠ '/')) ++
            ('/' :: (r3.takeWhile (fun c => decide (c ≠ '/')) ++
              r3.dropWhile (fun c => decide (c ≠ '/')))) := by
            rw [List.takeWhile_append_dropWhile]
    · exact (Option.some_inj.mp hres).symm

/-- Witness for `validate_repo_url_amended`: a URL with a trailing
`/tree/main` path validates to its first two path components. -/
theorem validate_repo_url_amended_witness :
    validate_repo_url "https://github.com/octocat/hello-world/tree/main".toList
      = some ("octocat".toList ++ '/' :: "hello-world".toList) :=
  (validate_repo_url_amended _).1 "https://".toList "octocat".toList "hello-world".toList
    "/tree/main".toList (Or.inr rfl) (by decide) (by decide) (by decide) (by decide)
    (Or.inr ⟨"tree/main".toList, by decide⟩) (by decide)

/-! ## Claim C2: empty key points -/

/-- Claim C2 counterexample: `run_ai_analysis` performs no emptiness check on
`key_points`.  A structured response whose `key_points` list is empty makes
the call succeed with an empty `features` sequence, instead of failing with
the AI-analysis error as the claim states. -/
theorem ai_empty_keypoints_counterexample :
    run_ai_analysis sampleRepoData (fun _ _ => .ok ⟨some "An overview.", some []⟩)
        = .ok { overview := "An overview.", features := [] }
      ∧ ({ overview := "An overview.", features := [] } : AnalysisOutput).features.length
          = 0 :=
  ⟨rfl, rfl⟩

/-- Claim C2 amended: a successful `run_ai_analysis` call returns the
response's `key_points` list verbatim as the key points of the result, with
no emptiness check: a well-formed response with an empty `key_points` list
yields a successful result with empty key points rather than an
AI-analysis error. -/
theorem ai_keypoints_passthrough (rd : RepoData)
    (oracle : Nat → String → Except String SummaryResult) (s : String) (kp : List String)
    (h : oracle 0 (compose_prompt rd) = .ok ⟨some s, some kp⟩) :
    run_ai_analysis rd oracle = .ok { overview := s, features := kp } := by
  simp only [run_ai_analysis, h]

/-- Witness for `ai_keypoints_passthrough` at an empty key-points list. -/
theorem ai_keypoints_passthrough_witness :
    ((fun _ _ => .ok ⟨some "An overview.", some []⟩ :
          Nat → String → Except String SummaryResult) 0 (compose_prompt sampleRepoData)
        = .ok ⟨some "An overview.", some []⟩)
      ∧ run_ai_analysis sampleRepoData (fun _ _ => .ok ⟨some "An overview.", some []⟩)
          = .ok { overview := "An overview.", features := [] } :=
  ⟨rfl, ai_keypoints_passthrough _ _ _ _ rfl⟩

/-! ## Claim C5: AI error mapping and single attempt -/

/-- Claim C5: a transport failure, or a structured response lacking
`summary` or `key_points`, makes `run_ai_analysis` fail with the single
wrapped AI-analysis error message and produce no result; and the outcome
depends only on attempt 0 of the oracle — exactly one request attempt, no
retry. -/
theorem ai_error_mapping (rd : RepoData)
    (oracle : Nat → String → Except String SummaryResult) :
    (∀ e, oracle 0 (compose_prompt rd) = .error e →
        run_ai_analysis rd oracle = .error (aiErrorMsg e))
    ∧ (∀ obj, oracle 0 (compose_prompt rd) = .ok obj → obj.summary = none →
        run_ai_analysis rd oracle = .error (aiErrorMsg missingSummaryDetail))
    ∧ (∀ obj s, oracle 0 (compose_prompt rd) = .ok obj → obj.summary = some s →
        obj.key_points = none →
        run_ai_analysis rd oracle = .error (aiErrorMsg missingKeyPointsDetail))
    ∧ (∀ oracle2 : Nat → String → Except String SummaryResult,
        oracle2 0 = oracle 0 →
        run_ai_analysis rd oracle2 = run_ai_analysis rd oracle) := by
  refine ⟨?_, ?_, ?_, ?_⟩
  · intro e h
    simp only [run_ai_analysis, h]
  · intro obj h hs
    simp only [run_ai_analysis, h, hs]
  · intro obj s h hs hk
    simp only [run_ai_analysis, h, hs, hk]
  · intro oracle2 h
    simp only [run_ai_analysis, h]

/-- Witness for `ai_error_mapping`: a transport failure surfaces as the
wrapped error message. -/
theorem ai_error_mapping_witness :
    ((fun _ _ => .error "connection reset" :
          Nat → String → Except String SummaryResult) 0 (compose_prompt sampleRepoData)
        = .error "connection reset")
      ∧ run_ai_analysis sampleRepoData (fun _ _ => .error "connection reset")
          = .error (aiErrorMsg "connection reset") :=
  ⟨rfl, (ai_error_mapping _ _).1 "connection reset" rfl⟩

/-! ## Claim C7: per-file truncation in the composed prompt -/

theorem foldl_fileBlock_data (l : List (String × String)) (init : String) :
    (l.foldl (fun acc pc => acc ++ fileBlock pc.1 pc.2) init).data
      = init.data ++ (l.map (fun pc => (fileBlock pc.1 pc.2).data)).flatten := by
  induction l generalizing init with
  | nil => simp
  | cons x t ih =>
    rw [List.foldl_cons, ih, string_data_append]
    simp [List.append_assoc]

theorem mem_map_join_decomp {α β : Type _} (g : α → List β) {l : List α} {x : α}
    (h : x ∈ l) : ∃ A B, (l.map g).flatten = A ++ (g x ++ B) := by
  induction l with
  | nil => cases h
  | cons y t ih =>
    rcases List.mem_cons.mp h with rfl | h2
    · exact ⟨[], (t.map g).flatten, by simp⟩
    · obtain ⟨A, B, hAB⟩ := ih h2
      exact ⟨g y ++ A, B, by simp [hAB, List.append_assoc]⟩

set_option maxHeartbeats 1600000 in
/-- Claim C7: each file of the context appears in the composed prompt as a
delimited block whose content portion is exactly the first 1500 characters
of the stored content — hence at most 1500 characters, a prefix of the
content, and the whole content verbatim when it is 1500 characters or
shorter, in particular for the two placeholder reason texts. -/
theorem prompt_truncation (rd : RepoData) (path content : String)
    (h : (path, content) ∈ rd.important_files) :
    (∃ pre post : List Char,
        (compose_prompt rd).data = pre ++ ((fileBlock path content).data ++ post))
    ∧ (fileBlock path content).data
        = ("\n--- Start of " ++ path ++ " ---\n").data ++
            (content.data.take 1500 ++ ("\n--- End of " ++ path ++ " ---\n").data)
    ∧ (content.data.take 1500).length ≤ 1500
    ∧ content.data.take 1500 ++ content.data.drop 1500 = content.data
    ∧ (content.data.length ≤ 1500 → content.data.take 1500 = content.data)
    ∧ ((content = tooLargeMsg 15000 ∨ content = undecodableMsg) →
        content.data.take 1500 = content.data) := by
  refine ⟨?_, ?_, List.length_take_le _ _, List.take_append_drop _ _,
    List.take_of_length_le, ?_⟩
  · obtain ⟨A, B, hAB⟩ := mem_map_join_decomp (fun pc => (fileBlock pc.1 pc.2).data) h
    refine ⟨("Please provide a comprehensive analysis of the following repository context:\n").data
        ++ ((contextHeader rd).data ++ A), B, ?_⟩
    rw [compose_prompt, string_data_append, composeContext, foldl_fileBlock_data, hAB]
    simp [List.append_assoc]
  · rw [fileBlock]
    simp [string_data_append, List.append_assoc]
  · rintro (rfl | rfl) <;> decide

/-- Witness for `prompt_truncation` at a concrete context. -/
theorem prompt_truncation_witness :
    ("README.md", "hello") ∈ sampleRepoData.important_files
      ∧ ∃ pre post : List Char,
          (compose_prompt sampleRepoData).data
            = pre ++ ((fileBlock "README.md" "hello").data ++ post) :=
  ⟨by decide, (prompt_truncation sampleRepoData "README.md" "hello" (by decide)).1⟩

/-! ## Claim C3: priority sorting is stable -/

theorem filter_sortKey_orderedInsert (a : ContentFile) (l : List ContentFile)
    (k : WithTop Nat) :
    (List.orderedInsert fileOrder a l).filter (fun f => sortKey f = k)
      = if sortKey a = k then a :: l.filter (fun f => sortKey f = k)
        else l.filter (fun f => sortKey f = k) := by
  induction l with
  | nil =>
    simp only [List.orderedInsert, List.filter]
    by_cases hk : sortKey a = k
    · simp [hk]
    · simp [hk]
  | cons b t ih =>
    rw [List.orderedInsert]
    by_cases hab : fileOrder a b
    · rw [if_pos hab, List.filter_cons, List.filter_cons]
      by_cases hk : sortKey a = k
      · simp [hk, List.filter_cons]
      · simp [hk, List.filter_cons]
    · rw [if_neg hab, List.filter_cons, ih]
      have hb : sortKey b < sortKey a := lt_of_not_le hab
      by_cases hk : sortKey a = k
      · have hbk : ¬ sortKey b = k := hk ▸ ne_of_lt hb
        simp [hk, hbk, List.filter_cons]
      · by_cases hbk : sortKey b = k
        · simp [hk, hbk, List.filter_cons]
        · simp [hk, hbk, List.filter_cons]

theorem filter_sortKey_sortFiles (l : List ContentFile) (k : WithTop Nat) :
    (sortFiles l).filter (fun f => sortKey f = k) = l.filter (fun f => sortKey f = k) := by
  induction l with
  | nil => rfl
  | cons a t ih =>
    show (List.orderedInsert fileOrder a (List.insertionSort fileOrder t)).filter _ = _
    rw [filter_sortKey_orderedInsert, List.filter_cons]
    by_cases hk : sortKey a = k
    · simp only [sortFiles] at ih
      simp [hk, ih]
    · simp only [sortFiles] at ih
      simp [hk, ih]

theorem perm_pair_cases {α : Type _} {l : List α} {a b : α} (h : List.Perm l [a, b]) :
    l = [a, b] ∨ l = [b, a] := by
  have hlen : l.length = 2 := h.length_eq
  cases l with
  | nil => simp at hlen
  | cons x l1 =>
    cases l1 with
    | nil => simp at hlen
    | cons y l2 =>
      cases l2 with
      | cons z l3 => simp at hlen
      | nil =>
        have hx : x ∈ [a, b] := h.mem_iff.mp (by simp)
        rcases List.mem_cons.mp hx with rfl | hx2
        · have hy : [y] = [b] := List.perm_singleton.mp h.cons_inv
          obtain rfl : y = b := by simpa using hy
          exact Or.inl rfl
        · obtain rfl : x = b := by simpa using hx2
          have h2 : List.Perm (x :: [y]) (x :: [a]) := h.trans (List.Perm.swap x a [])
          have hy : [y] = [a] := List.perm_singleton.mp h2.cons_inv
          obtain rfl : y = a := by simpa using hy
          exact Or.inr rfl

theorem perm_three_cases {α : Type _} {l : List α} {a b c : α}
    (h : List.Perm l [a, b, c]) :
    l = [a, b, c] ∨ l = [a, c, b] ∨ l = [b, a, c] ∨ l = [b, c, a]
      ∨ l = [c, a, b] ∨ l = [c, b, a] := by
  have hlen : l.length = 3 := h.length_eq
  cases l with
  | nil => simp at hlen
  | cons x l1 =>
    cases l1 with
    | nil => simp at hlen
    | cons y l2 =>
      cases l2 with
      | nil => simp at hlen
      | cons z l3 =>
        cases l3 with
        | cons w l4 => simp at hlen
        | nil =>
          have hx : x ∈ [a, b, c] := h.mem_iff.mp (by simp)
          rcases List.mem_cons.mp hx with rfl | hx2
          · rcases perm_pair_cases h.cons_inv with h3 | h3
            · simp only [List.cons_eq_cons, and_true] at h3
              obtain ⟨rfl, rfl⟩ := h3
              exact Or.inl rfl
            · simp only [List.cons_eq_cons, and_true] at h3
              obtain ⟨rfl, rfl⟩ := h3
              exact Or.inr (Or.inl rfl)
          · rcases List.mem_cons.mp hx2 with rfl | hx3
            · have h2 : List.Perm (x :: [y, z]) (x :: [a, c]) :=
                h.trans (List.Perm.swap x a [c])
              rcases perm_pair_cases h2.cons_inv with h3 | h3
              · simp only [List.cons_eq_cons, and_true] at h3
                obtain ⟨rfl, rfl⟩ := h3
                exact Or.inr (Or.inr (Or.inl rfl))
              · simp only [List.cons_eq_cons, and_true] at h3
                obtain ⟨rfl, rfl⟩ := h3
                exact Or.inr (Or.inr (Or.inr (Or.inl rfl)))
            · obtain rfl : x = c := by simpa using hx3
              have p1 : List.Perm [a, b, x] [a, x, b] :=
                List.Perm.cons a (List.Perm.swap x b [])
              have p2 : List.Perm [a, x, b] [x, a, b] := List.Perm.swap x a [b]
              have h2 : List.Perm (x :: [y, z]) (x :: [a, b]) := h.trans (p1.trans p2)
              rcases perm_pair_cases h2.cons_inv with h3 | h3
              · simp only [List.cons_eq_cons, and_true] at h3
                obtain ⟨rfl, rfl⟩ := h3
                exact Or.inr (Or.inr (Or.inr (Or.inr (Or.inl rfl))))
              · simp only [List.cons_eq_cons, and_true] at h3
                obtain ⟨rfl, rfl⟩ := h3
                exact Or.inr (Or.inr (Or.inr (Or.inr (Or.inr rfl))))

/-- Claim C3: the selector sorts the regular-file entries of the listing
stably in ascending order of their index in the priority list — sorted by
`fileOrder` (absent names carry key `⊤` and hence come after all listed
names), a permutation of the filtered input, and with every equal-key fiber
kept in input order (stability).  Moreover, for any permutation of a listing
holding `README.md`, `random.txt` and `package.json`, selection with
`maxFiles = 2` picks `README.md` then `package.json`. -/
theorem file_selection_stable_sort :
    (∀ listing : List ContentFile,
        List.Sorted fileOrder (sortFiles (listing.filter (fun f => f.type = "file")))
        ∧ List.Perm (sortFiles (listing.filter (fun f => f.type = "file")))
            (listing.filter (fun f => f.type = "file"))
        ∧ ∀ k : WithTop Nat,
            (sortFiles (listing.filter (fun f => f.type = "file"))).filter
                (fun f => sortKey f = k)
              = (listing.filter (fun f => f.type = "file")).filter
                  (fun f => sortKey f = k))
    ∧ (∀ l : List ContentFile,
        List.Perm l [readmeEntry, randomEntry, packageEntry] →
        ((get_important_file_content (.ok l) 2 15000).1).map Prod.fst
          = ["README.md", "package.json"]) := by
  constructor
  · intro listing
    exact ⟨List.sorted_insertionSort fileOrder _, List.perm_insertionSort fileOrder _,
      fun k => filter_sortKey_sortFiles _ k⟩
  · intro l hl
    rcases perm_three_cases hl with rfl | rfl | rfl | rfl | rfl | rfl <;> decide

/-- Witness for `file_selection_stable_sort` on one concrete permutation. -/
theorem file_selection_stable_sort_witness :
    List.Perm [packageEntry, readmeEntry, randomEntry]
        [readmeEntry, randomEntry, packageEntry]
      ∧ ((get_important_file_content (.ok [packageEntry, readmeEntry, randomEntry])
            2 15000).1).map Prod.fst = ["README.md", "package.json"] :=
  ⟨by decide, file_selection_stable_sort.2 _ (by decide)⟩

/-! ## Claim C4: selection bounds -/

/-- Claim C4: the selector returns at most `maxFiles` entries, every
selected file strictly larger than `maxFileSize` appears as the too-large
placeholder entry, and the per-file step for an oversized file is the
placeholder no matter what the fetched content would have decoded to (its
content is never consulted). -/
theorem selection_bounds (contents : Except String (List ContentFile))
    (max_files max_file_size : Nat) :
    (get_important_file_content contents max_files max_file_size).1.length ≤ max_files
    ∧ (∀ cs, contents = .ok cs →
        ∀ f ∈ (sortFiles (cs.filter (fun g => g.type = "file"))).take max_files,
          max_file_size < f.size →
            (f.path, tooLargeMsg max_file_size)
              ∈ (get_important_file_content contents max_files max_file_size).1)
    ∧ (∀ f : ContentFile, max_file_size < f.size →
        ∀ d, fetchEntry max_file_size { f with decoded := d }
          = (f.path, tooLargeMsg max_file_size)) := by
  refine ⟨?_, ?_, ?_⟩
  · rcases contents with e | cs
    · simp [get_important_file_content]
    · simp only [get_important_file_content, List.length_map]
      exact List.length_take_le _ _
  · intro cs hcs f hf hsize
    subst hcs
    simp only [get_important_file_content]
    have hfe : fetchEntry max_file_size f = (f.path, tooLargeMsg max_file_size) := by
      rw [fetchEntry, if_pos hsize]
    exact hfe ▸ List.mem_map_of_mem _ hf
  · intro f hsize d
    rw [fetchEntry, if_pos hsize]

/-- Witness for `selection_bounds`: an oversized file gets the placeholder. -/
theorem selection_bounds_witness :
    ((.ok [bigEntry] : Except String (List ContentFile)) = .ok [bigEntry])
      ∧ bigEntry ∈ (sortFiles ([bigEntry].filter (fun g => g.type = "file"))).take 7
      ∧ 15000 < bigEntry.size
      ∧ ("big.bin", tooLargeMsg 15000)
          ∈ (get_important_file_content (.ok [bigEntry]) 7 15000).1 :=
  ⟨rfl, by decide, by decide,
    (selection_bounds _ _ _).2.1 _ rfl bigEntry (by decide) (by decide)⟩

/-! ## Claim C10: boundary size is still fetched -/

/-- Claim C10: the size cutoff is a strict comparison, so a file whose size
equals `maxFileSize` exactly takes the fetch-and-decode path: its entry is
built from its `decoded` content (placeholder only on decode failure), not
the too-large placeholder. -/
theorem boundary_size_fetched (max_file_size : Nat) (f : ContentFile)
    (h : f.size = max_file_size) :
    fetchEntry max_file_size f = (f.path, f.decoded.getD undecodableMsg)
    ∧ (∀ text, f.decoded = some text → fetchEntry max_file_size f = (f.path, text)) := by
  have hnot : ¬ f.size > max_file_size := by omega
  constructor
  · rw [fetchEntry, if_neg hnot]
    rcases hd : f.decoded with _ | text <;> rfl
  · intro text ht
    rw [fetchEntry, if_neg hnot, ht]

/-- Witness for `boundary_size_fetched` at the default 15000-byte ceiling. -/
theorem boundary_size_fetched_witness :
    boundaryEntry.size = 15000
      ∧ boundaryEntry.decoded = some "edge content"
      ∧ fetchEntry 15000 boundaryEntry = ("edge.txt", "edge content") :=
  ⟨rfl, rfl, (boundary_size_fetched 15000 boundaryEntry rfl).2 "edge content" rfl⟩

/-! ## Claim C6: forge error mapping -/

/-- Claim C6: a forge failure during context fetching is re-raised with the
status distinguished — the fixed not-found message for 404, the fixed
authentication message for 401, and the generic wrapper around the forge
message otherwise; the three messages are pairwise distinct. -/
theorem fetch_error_mapping (e : GithubError) :
    (e.status = 404 →
        fetch_repo_data (.error e)
          = .error "Repository not found. Please check the URL.")
    ∧ (e.status = 401 →
        fetch_repo_data (.error e)
          = .error "Authentication error. Please check your GitHub token.")
    ∧ (e.status ≠ 404 → e.status ≠ 401 →
        fetch_repo_data (.error e)
          = .error ("Error fetching repo data: " ++ e.msg))
    ∧ ("Repository not found. Please check the URL."
          ≠ "Authentication error. Please check your GitHub token.")
    ∧ (∀ m : String,
        "Repository not found. Please check the URL."
            ≠ "Error fetching repo data: " ++ m
          ∧ "Authentication error. Please check your GitHub token."
            ≠ "Error fetching repo data: " ++ m) := by
  refine ⟨?_, ?_, ?_, by decide, ?_⟩
  · intro h
    simp [fetch_repo_data, h]
  · intro h
    rcases e with ⟨s, m⟩
    subst h
    simp [fetch_repo_data]
  · intro h404 h401
    simp [fetch_repo_data, h404, h401]
  · intro m
    constructor
    · intro hEq
      have h := congrArg (fun s => s.data.take 26) hEq
      simp only [string_data_append] at h
      rw [show (26 : Nat) = ("Error fetching repo data: ").data.length from by decide,
        List.take_left] at h
      exact absurd h (by decide)
    · intro hEq
      have h := congrArg (fun s => s.data.take 26) hEq
      simp only [string_data_append] at h
      rw [show (26 : Nat) = ("Error fetching repo data: ").data.length from by decide,
        List.take_left] at h
      exact absurd h (by decide)

/-- Witness for `fetch_error_mapping` at status 404. -/
theorem fetch_error_mapping_witness :
    ((⟨404, "not found"⟩ : GithubError).status = 404)
      ∧ fetch_repo_data (.error ⟨404, "not found"⟩)
          = .error "Repository not found. Please check the URL." :=
  ⟨rfl, (fetch_error_mapping _).1 rfl⟩

/-! ## Claim C8: non-fatal degradation -/

/-- Claim C8: a failure to enumerate the root listing yields the empty file
set plus the warning text (no hard failure — the selector still returns a
value); a per-file decode failure degrades that single file to the
undecodable placeholder; and on a successful listing every taken file is
processed independently by the per-file step, so the number of selected
entries depends only on the listing, never on decode failures. -/
theorem selection_degradation (max_files max_file_size : Nat) :
    (∀ e, get_important_file_content (.error e) max_files max_file_size
        = ([], some (listingWarning e)))
    ∧ (∀ f : ContentFile, f.size ≤ max_file_size → f.decoded = none →
        fetchEntry max_file_size f = (f.path, undecodableMsg))
    ∧ (∀ cs : List ContentFile,
        (get_important_file_content (.ok cs) max_files max_file_size).1
            = ((sortFiles (cs.filter (fun f => f.type = "file"))).take max_files).map
                (fetchEntry max_file_size)
          ∧ (get_important_file_content (.ok cs) max_files max_file_size).1.length
              = min max_files (cs.filter (fun f => f.type = "file")).length) := by
  refine ⟨fun e => rfl, ?_, ?_⟩
  · intro f hle hdec
    rw [fetchEntry, if_neg (not_lt.mpr hle), hdec]
  · intro cs
    refine ⟨rfl, ?_⟩
    simp only [get_important_file_content, List.length_map, List.length_take]
    simp only [sortFiles]
    rw [(List.perm_insertionSort fileOrder _).length_eq]

/-- Witness for `selection_degradation`: a decode failure degrades to the
placeholder entry. -/
theorem selection_degradation_witness :
    badEntry.size ≤ 15000 ∧ badEntry.decoded = none
      ∧ fetchEntry 15000 badEntry = ("data.bin", undecodableMsg) :=
  ⟨by decide, rfl, (selection_degradation 7 15000).2.1 badEntry (by decide) rfl⟩

/-! ## Claim C9: defaults for missing metadata -/

/-- Claim C9: when the forge metadata lacks a description or a primary
language, the built context carries the fixed human-readable defaults for
those fields, and every other field is taken from the forge response
unchanged. -/
theorem fetch_defaults (raw : RawRepo) (rd : RepoData)
    (h : fetch_repo_data (.ok raw) = .ok rd) :
    (raw.description = none → rd.description = "No description provided.")
    ∧ (raw.language = none → rd.language = "Not specified")
    ∧ rd.name = raw.name ∧ rd.owner = raw.owner_login ∧ rd.url = raw.html_url
    ∧ rd.stars = raw.stargazers_count ∧ rd.forks = raw.forks_count
    ∧ rd.topics = raw.topics ∧ rd.tech_stack = raw.languages := by
  simp only [fetch_repo_data, Except.ok.injEq] at h
  subst h
  refine ⟨?_, ?_, rfl, rfl, rfl, rfl, rfl, rfl, rfl⟩
  · intro hd
    simp [orDefault, hd]
  · intro hl
    simp [orDefault, hl]

/-- Witness for `fetch_defaults` on a forge response with no description and
no primary language. -/
theorem fetch_defaults_witness :
    fetch_repo_data (.ok bareRawRepo) = .ok bareRepoData
      ∧ bareRawRepo.description = none
      ∧ bareRepoData.description = "No description provided." :=
  ⟨rfl, rfl, (fetch_defaults bareRawRepo bareRepoData rfl).1 rfl⟩

end RepoAnalyst
